import Mathlib

/-!
Verification development for the LiteRT-LM conversational runtime core.

The definitions below are shallow embeddings of:
- runtime/components/top_p_cpu_sampler.cc (TopPSampler::Create, ValidateTensor,
  TopPSampler::SampleToIdAndScoreBuffer),
- runtime/components/tool_use/parser_common.cc (StripQuotes, DefaultErrorListener),
- runtime/conversation/conversation.h (Conversation history accessors),
- the Kotlin binding Message/Content data model with its JSON serialization.

Machine floats are modelled by rationals; the transcendental pieces (the softmax
exponential and the final natural log) are respectively abstracted as a function
parameter and embedded as Real.log.
-/

namespace LiteRTLM

/-- Error model for absl::Status values produced by the embedded code. All
failures in the embedded fragment are InvalidArgument errors carrying a
message string. -/
inductive Status where
  | invalidArgument (msg : String)
deriving DecidableEq, Repr

/-! ### TopPSampler configuration (top_p_cpu_sampler.cc) -/

/-- The state carried by a successfully created TopPSampler. -/
structure TopPSampler where
  k : Int
  p : Rat
  temperature : Rat
  batchSize : Int
  seed : Int
deriving DecidableEq, Repr

/-- Embedding of TopPSampler::Create from top_p_cpu_sampler.cc. The float
parameters p and temperature are modelled as rationals; the validation
comparisons are exact in both. The checks appear in source order: k, p,
batch_size, temperature; seed is not inspected. -/
def TopPSampler.Create (k : Int) (p : Rat) (temperature : Rat)
    (batchSize : Int) (seed : Int) : Except Status TopPSampler :=
  if k ≤ 0 then
    .error (.invalidArgument "k must be positive.")
  else if p < 0 ∨ p > 1 then
    .error (.invalidArgument "p must be in [0, 1].")
  else if batchSize ≤ 0 then
    .error (.invalidArgument "batch_size must be positive.")
  else if temperature < 0 then
    .error (.invalidArgument
      ("Temperature must be >= 0, but got " ++ toString temperature))
  else
    .ok ⟨k, p, temperature, batchSize, seed⟩

/-! ### StripQuotes (parser_common.cc) -/

/-- The double-quote character. -/
def dquote : Char := Char.ofNat 34

/-- The single-quote character. -/
def squote : Char := Char.ofNat 39

/-- Embedding of StripQuotes from parser_common.cc, on the character list of
the input. Mirrors the source condition: if size < 2, or the first character
is neither a double quote nor a single quote, or the last character differs
from the first, the input is returned unchanged; otherwise substr(1, size-2)
is returned. -/
def StripQuotes (text : List Char) : List Char :=
  if text.length < 2 ∨ (text.head? ≠ some dquote ∧ text.head? ≠ some squote) ∨
      text.getLast? ≠ text.head? then
    text
  else
    (text.drop 1).dropLast

/-! ### DefaultErrorListener (parser_common.cc) -/

/-- The four ANTLR diagnostic callbacks that DefaultErrorListener overrides:
syntax errors, ambiguity reports, full-context attempts, and
context-sensitivity reports. -/
inductive ListenerEvent where
  | synErr
  | ambiguity
  | fullContext
  | ctxSensitivity
deriving DecidableEq, Repr

/-- The observable state of a DefaultErrorListener: its status_ flag. -/
structure DefaultErrorListener where
  status : Bool
deriving DecidableEq, Repr

/-- The constructor DefaultErrorListener() : status_(true). -/
def DefaultErrorListener.new : DefaultErrorListener := ⟨true⟩

/-- One diagnostic callback firing: each of the four overrides sets
status_ = false, mirroring the four member definitions in parser_common.cc. -/
def DefaultErrorListener.handle (_l : DefaultErrorListener) :
    ListenerEvent → DefaultErrorListener
  | .synErr => ⟨false⟩
  | .ambiguity => ⟨false⟩
  | .fullContext => ⟨false⟩
  | .ctxSensitivity => ⟨false⟩

/-- A freshly constructed listener after an arbitrary sequence of diagnostic
callbacks. -/
def DefaultErrorListener.run (events : List ListenerEvent) : DefaultErrorListener :=
  events.foldl DefaultErrorListener.handle DefaultErrorListener.new

/-! ### Sampling core

TopKTopPSampling lives in runtime/components/sampling_cpu_util, which is not
among the provided sources; only its caller TopPSampler::SampleToIdAndScoreBuffer
is. The definitions in this section are therefore modelled from the spec
(section 4.1). -/

/-- Modelled from the spec: insertion step for ordering candidate indices by
descending logit. An index is inserted before the first position whose logit
is not strictly greater, so equal logits keep ascending index order
("ties preserve original descending-logit ordering"). -/
def insertDesc (logits : List Rat) (i : Nat) : List Nat → List Nat
  | [] => [i]
  | j :: rest =>
      if logits.getD j 0 > logits.getD i 0 then j :: insertDesc logits i rest
      else i :: j :: rest

/-- Modelled from the spec: all candidate indices of one row, ordered by
descending logit with ties in ascending index order. -/
def argsortDesc (logits : List Rat) : List Nat :=
  (List.range logits.length).foldr (insertDesc logits) []

/-- Modelled from the spec: nucleus truncation, the smallest prefix (taken in
descending probability order) whose cumulative probability reaches p. If p
exceeds the total mass the whole list is kept. -/
def nucleusCut (p : Rat) : List (Nat × Rat) → List (Nat × Rat)
  | [] => []
  | (i, q) :: rest =>
      if p ≤ q then [(i, q)] else (i, q) :: nucleusCut (p - q) rest

/-- Modelled from the spec: drawing one index from a discrete distribution by
scanning cumulative probabilities with a uniform draw u. The last entry absorbs
any remaining mass, so the draw always lands inside a nonempty list. -/
def pickFrom (u : Rat) : List (Nat × Rat) → Nat × Rat
  | [] => (0, 0)
  | [(i, q)] => (i, q)
  | (i, q) :: next :: rest =>
      if u < q then (i, q) else pickFrom (u - q) (next :: rest)

/-- Modelled from the spec: the top-k highest-logit candidates of one row, in
descending logit order. -/
def rowCand (logits : List Rat) (k : Nat) : List Nat :=
  (argsortDesc logits).take k

/-- Modelled from the spec: the softmax distribution over the top-k candidates
after temperature scaling, with the exponential abstracted as the positive
weight function w: each candidate carries its weight divided by the total
weight. -/
def rowProbs (logits : List Rat) (k : Nat) (temperature : Rat)
    (w : Rat → Rat) : List (Nat × Rat) :=
  let weights := (rowCand logits k).map fun i => w (logits.getD i 0 / temperature)
  (rowCand logits k).zip (weights.map (· / weights.sum))

/-- Modelled from the spec: the final distribution of one batch row for a
nonzero temperature: softmax over the top-k temperature-scaled candidates,
nucleus truncation at p, and renormalization. -/
def finalDist (logits : List Rat) (k : Nat) (p : Rat) (temperature : Rat)
    (w : Rat → Rat) : List (Nat × Rat) :=
  let cut := nucleusCut p (rowProbs logits k temperature w)
  cut.map fun iq => (iq.1, iq.2 / (cut.map Prod.snd).sum)

/-- Modelled from the spec: sampling one batch row. With temperature 0 the
probabilistic part is skipped entirely and the single highest-logit candidate
is picked deterministically (its reported probability is the degenerate 1);
otherwise one index is drawn from the truncated renormalized distribution with
the uniform draw u. Returns the chosen index with its final probability, which
the caller converts to a score by taking the natural log. -/
def TopKTopPSamplingRow (logits : List Rat) (k : Nat) (p : Rat)
    (temperature : Rat) (w : Rat → Rat) (u : Rat) : Nat × Rat :=
  if temperature = 0 then ((rowCand logits k).headI, 1)
  else pickFrom u (finalDist logits k p temperature w)

/-- Modelled from the spec: batched TopKTopPSampling. Each row is sampled
independently with its own uniform draw. -/
def TopKTopPSampling (logits : List (List Rat)) (k : Nat) (p : Rat)
    (temperature : Rat) (w : Rat → Rat) (us : List Rat) : List (Nat × Rat) :=
  (logits.zip us).map fun ru => TopKTopPSamplingRow ru.1 k p temperature w ru.2

/-! ### Tensor validation and SampleToIdAndScoreBuffer (top_p_cpu_sampler.cc) -/

/-- The observable attributes of a TensorBuffer used by ValidateTensor: its
layout dimensions and its number of significant dimensions (the value of
NumSignificantDims, whose definition is outside the provided sources and is
therefore carried as an attribute of the tensor). -/
structure TensorInfo where
  dims : List Int
  numSignificantDims : Nat
deriving DecidableEq, Repr

/-- Embedding of the file-local ValidateTensor from top_p_cpu_sampler.cc:
rejects a tensor with more than maxNumDims significant dimensions, then a
tensor whose first dimension differs from the configured batch size, each
with an InvalidArgument error naming the tensor and the sizes. -/
def ValidateTensor (tensor : TensorInfo) (maxNumDims : Nat) (batchSize : Int)
    (tensorName : String) : Except Status Unit :=
  if tensor.numSignificantDims > maxNumDims then
    .error (.invalidArgument
      ("The output " ++ tensorName ++ " tensor must have <=" ++
        toString maxNumDims ++ " significant dimension, but got " ++
        toString tensor.numSignificantDims))
  else if tensor.dims.headI ≠ batchSize then
    .error (.invalidArgument
      ("The output " ++ tensorName ++
        " tensor must have the same batch size as the input logits tensor, but got "
        ++ toString tensor.dims.headI ++ " vs " ++ toString batchSize))
  else
    .ok ()

/-- The pseudo-random generator owned by a sampler, modelled as a stream of
uniform draws together with a position; sampling a batch consumes one draw per
row and advances the position. -/
structure Generator where
  draws : Nat → Rat
  pos : Nat

/-- Everything observable about one SampleToIdAndScoreBuffer call: the returned
status, the ids written into the ids tensor (none when the call failed before
the write), the probabilities whose logs are written into the scores tensor
(none when no scores tensor was supplied or its validation failed), and the
generator state after the call. -/
structure SampleResult where
  status : Except Status Unit
  idsWritten : Option (List Nat)
  probsWritten : Option (List Rat)
  gen : Generator

/-- Embedding of TopPSampler::SampleToIdAndScoreBuffer from
top_p_cpu_sampler.cc, in source order: validate the logits tensor (max 2
significant dims), validate the ids tensor (max 1), run TopKTopPSampling
(which consumes generator draws), write the sampled ids, and only then, when a
scores tensor is supplied, validate it (max 1) and write the per-row scores.
The logits data is the row-major float content of the logits tensor, given per
batch row. -/
def TopPSampler.SampleToIdAndScoreBuffer (s : TopPSampler) (w : Rat → Rat)
    (gen : Generator) (logitsTensor : TensorInfo) (logitsData : List (List Rat))
    (idsTensor : TensorInfo) (scoresTensor : Option TensorInfo) : SampleResult :=
  match ValidateTensor logitsTensor 2 s.batchSize "input logits" with
  | .error e => ⟨.error e, none, none, gen⟩
  | .ok _ =>
  match ValidateTensor idsTensor 1 s.batchSize "output ids" with
  | .error e => ⟨.error e, none, none, gen⟩
  | .ok _ =>
    let n := s.batchSize.toNat
    let us := (List.range n).map fun r => gen.draws (gen.pos + r)
    let sampled := TopKTopPSampling logitsData s.k.toNat s.p s.temperature w us
    let gen' : Generator := ⟨gen.draws, gen.pos + n⟩
    let sampledIds := sampled.map Prod.fst
    let sampledProbs := sampled.map Prod.snd
    match scoresTensor with
    | none => ⟨.ok (), some sampledIds, none, gen'⟩
    | some st =>
      match ValidateTensor st 1 s.batchSize "output scores" with
      | .error e => ⟨.error e, some sampledIds, none, gen'⟩
      | .ok _ => ⟨.ok (), some sampledIds, some sampledProbs, gen'⟩

/-- Embedding of the score conversion loop of SampleToIdAndScoreBuffer:
scores[i] = std::log(sampled_scores[i]), with std::log embedded as Real.log. -/
noncomputable def writtenScoreValues (probs : List Rat) : List Real :=
  probs.map fun q => Real.log (q : Real)

/-! ### Conversation history (conversation.h)

The provided sources contain conversation.h with the inline history accessors
GetHistory and AccessHistory (both lock-guarded full views of the history
vector), but not the conversation.cc implementation of the turn pipeline, so
the commit step is modelled from the spec. -/

/-- The per-conversation state visible through the history accessors: the
history vector guarded by history_mutex_. The message element type is kept
abstract. -/
structure ConversationState (α : Type) where
  history : List α

/-- Modelled from the spec: the terminal outcome of one turn. A successful
turn carries the rendered input message and the final response message;
aborted, cancelled, and failed turns carry nothing
("History is updated only on confirmed completion"). -/
inductive TurnOutcome (α : Type) where
  | success (input : α) (response : α)
  | aborted
  | cancelled
  | failed

/-- Modelled from the spec: the end-of-turn commit. A successful turn appends
the rendered input message and the final response message to History in one
step under the history lock; any other outcome leaves History untouched. -/
def commitTurn (c : ConversationState α) : TurnOutcome α → ConversationState α
  | .success input response => ⟨c.history ++ [input, response]⟩
  | .aborted => c
  | .cancelled => c
  | .failed => c

/-- The conversation state after a sequence of completed turns. -/
def historyAfter (c : ConversationState α) (turns : List (TurnOutcome α)) :
    ConversationState α :=
  turns.foldl commitTurn c

/-- Embedding of Conversation::GetHistory from conversation.h: returns a copy
of the history vector taken under the lock. -/
def GetHistory (c : ConversationState α) : List α := c.history

/-- Embedding of Conversation::AccessHistory from conversation.h: runs the
visitor on the history vector while the lock is held. -/
def AccessHistory (c : ConversationState α) (visitor : List α → β) : β :=
  visitor c.history

/-! ### Message and Content data model (Kotlin binding) -/

/-- A minimal JSON value model for the wire shapes produced by the Kotlin
binding: strings, arrays, and objects with ordered string-keyed fields. -/
inductive Json where
  | str (s : String)
  | arr (elems : List Json)
  | obj (fields : List (String × Json))

/-- Looks up a field of a JSON object; non-objects have no fields. -/
def Json.getField (j : Json) (key : String) : Option Json :=
  match j with
  | .obj fields => (fields.find? fun f => f.1 = key).map Prod.snd
  | _ => none

/-- Whether a JSON value is an object carrying the given field. -/
def Json.hasField (j : Json) (key : String) : Bool :=
  match j with
  | .obj fields => fields.any fun f => f.1 = key
  | _ => false

/-- Embedding of the Kotlin Content sealed class: a text part, an image as
inline bytes or a file path, or audio as inline bytes or a file path. Bytes
are modelled as lists of byte values. -/
inductive Content where
  | text (t : String)
  | imageBytes (bytes : List Nat)
  | imageFile (absolutePath : String)
  | audioBytes (bytes : List Nat)
  | audioFile (absolutePath : String)
deriving DecidableEq, Repr

/-- Embedding of Content.toJson: each variant becomes a JSON object with its
type tag and payload. The kotlin.io Base64 encoder is outside the repository
and is passed in as b64. -/
def Content.toJson (b64 : List Nat → String) : Content → Json
  | .text t => .obj [("type", .str "text"), ("text", .str t)]
  | .imageBytes bytes => .obj [("type", .str "image"), ("blob", .str (b64 bytes))]
  | .imageFile path => .obj [("type", .str "image"), ("path", .str path)]
  | .audioBytes bytes => .obj [("type", .str "audio"), ("blob", .str (b64 bytes))]
  | .audioFile path => .obj [("type", .str "audio"), ("path", .str path)]

/-- Embedding of the Kotlin Message class: a list of Content parts. The class
has no further fields; in particular it carries no role. -/
structure Message where
  contents : List Content
deriving DecidableEq, Repr

/-- Embedding of Message.of(text: String): wraps the text in a single
Content.Text part. -/
def Message.ofText (t : String) : Message := ⟨[Content.text t]⟩

/-- Embedding of Message.of(content: Content): a singleton content list. -/
def Message.ofContent (c : Content) : Message := ⟨[c]⟩

/-- Embedding of Message.of(contents: List of Content): stores the list as
given. The private constructor performs no check; the isNotEmpty check sits in
the regular method named init, which no construction path invokes. -/
def Message.ofList (cs : List Content) : Message := ⟨cs⟩

/-- Embedding of the method fun init() of the Kotlin Message class: check
raises when the contents list is empty. It is a plain method, not an
initializer block, and is modelled separately because no caller of the
construction paths runs it. -/
def Message.initCheck (m : Message) : Except String Unit :=
  if m.contents.isEmpty then .error "Contents should not be empty." else .ok ()

/-- Embedding of Message.toJson: a JSON array holding each content part in
order. No role field is produced: the serialized Message is a bare array. -/
def Message.toJson (b64 : List Nat → String) (m : Message) : Json :=
  .arr (m.contents.map (Content.toJson b64))

/-- Modelled from the spec: the parse direction of the Message wire shape is
not among the provided sources; per the spec, a content part parses from its
type tag, with text carrying a text string, and image and audio carrying
either a base64 blob (decoded by the external dec) or a file path. -/
def parseContentPart (dec : String → Option (List Nat)) (j : Json) :
    Option Content :=
  match j.getField "type" with
  | some (.str "text") =>
      match j.getField "text" with
      | some (.str t) => some (.text t)
      | _ => none
  | some (.str "image") =>
      match j.getField "blob", j.getField "path" with
      | some (.str b), _ => (dec b).map .imageBytes
      | none, some (.str path) => some (.imageFile path)
      | _, _ => none
  | some (.str "audio") =>
      match j.getField "blob", j.getField "path" with
      | some (.str b), _ => (dec b).map .audioBytes
      | none, some (.str path) => some (.audioFile path)
      | _, _ => none
  | _ => none

/-- Modelled from the spec: parsing a list of serialized content parts; every
element must parse. -/
def parseContentList (dec : String → Option (List Nat)) :
    List Json → Option (List Content)
  | [] => some []
  | j :: rest =>
      match parseContentPart dec j, parseContentList dec rest with
      | some c, some cs => some (c :: cs)
      | _, _ => none

/-- Modelled from the spec: parsing the serialized content array of a Message
back into its content parts. -/
def parseMessageContents (dec : String → Option (List Nat)) (j : Json) :
    Option (List Content) :=
  match j with
  | .arr elems => parseContentList dec elems
  | _ => none

/-! ## Helper lemmas -/

/-- Every diagnostic callback leaves the listener in the fail state. -/
theorem handle_eq_fail (l : DefaultErrorListener) (e : ListenerEvent) :
    DefaultErrorListener.handle l e = ⟨false⟩ := by
  cases e <;> rfl

/-- Folding diagnostic callbacks over a failed listener keeps it failed. -/
theorem foldl_handle_fail (events : List ListenerEvent) :
    events.foldl DefaultErrorListener.handle ⟨false⟩ = ⟨false⟩ := by
  induction events with
  | nil => rfl
  | cons e es ih => rw [List.foldl_cons, handle_eq_fail]; exact ih

/-- Taking a positive number of elements preserves the default head. -/
theorem take_headI_of_pos {α : Type} [Inhabited α] (l : List α) (k : Nat)
    (hk : 0 < k) : (l.take k).headI = l.headI := by
  cases l with
  | nil => simp
  | cons a t =>
      cases k with
      | zero => omega
      | succ n => rfl

/-- Inserting an index never yields the empty list. -/
theorem insertDesc_ne_nil (logits : List Rat) (i : Nat) (l : List Nat) :
    insertDesc logits i l ≠ [] := by
  cases l with
  | nil => simp [insertDesc]
  | cons j rest =>
      unfold insertDesc
      split <;> simp

/-- The head of the descending insertion sort of a nonempty index list is one
of the indices and carries a maximal logit among them. -/
theorem foldr_insertDesc_head (logits : List Rat) (is : List Nat)
    (hne : is ≠ []) :
    is.foldr (insertDesc logits) [] ≠ [] ∧
    (is.foldr (insertDesc logits) []).headI ∈ is ∧
    ∀ j ∈ is, logits.getD j 0 ≤
      logits.getD (is.foldr (insertDesc logits) []).headI 0 := by
  induction is with
  | nil => exact absurd rfl hne
  | cons x is ih =>
      cases is with
      | nil =>
          refine ⟨by simp [insertDesc], by simp [insertDesc], ?_⟩
          intro j hj
          simp only [List.mem_singleton] at hj
          simp [hj, insertDesc]
      | cons y ys =>
          obtain ⟨hprev_ne, hprev_mem, hprev_max⟩ := ih (by simp)
          set prev := (y :: ys).foldr (insertDesc logits) [] with hprev
          obtain ⟨ph, pt, hpt⟩ := List.exists_cons_of_ne_nil hprev_ne
          have hfold : (x :: y :: ys).foldr (insertDesc logits) [] =
              insertDesc logits x prev := rfl
          have hh : prev.headI = ph := by rw [hpt]; rfl
          rw [hh] at hprev_mem hprev_max
          rw [hfold, hpt]
          unfold insertDesc
          split
          · next hgt =>
              refine ⟨by simp, ?_, ?_⟩
              · simp only [List.headI_cons]
                exact List.mem_cons_of_mem x hprev_mem
              · intro j hj
                simp only [List.headI_cons]
                rcases List.mem_cons.mp hj with hj | hj
                · subst hj
                  exact le_of_lt hgt
                · exact hprev_max j hj
          · next hle =>
              push_neg at hle
              refine ⟨by simp, by simp, ?_⟩
              intro j hj
              simp only [List.headI_cons]
              rcases List.mem_cons.mp hj with hj | hj
              · subst hj; exact le_refl _
              · exact le_trans (hprev_max j hj) hle

/-- For a nonempty logits row, the head of argsortDesc is a valid index that
attains the maximal logit of the row. -/
theorem argsortDesc_head_max (logits : List Rat) (hne : logits ≠ []) :
    argsortDesc logits ≠ [] ∧
    (argsortDesc logits).headI < logits.length ∧
    ∀ j < logits.length,
      logits.getD j 0 ≤ logits.getD (argsortDesc logits).headI 0 := by
  have hlen : logits.length ≠ 0 := fun h => hne (List.eq_nil_of_length_eq_zero h)
  have hrange : List.range logits.length ≠ [] := by
    intro h
    exact hlen (List.range_eq_nil.mp h)
  obtain ⟨h1, h2, h3⟩ := foldr_insertDesc_head logits (List.range logits.length) hrange
  refine ⟨h1, ?_, ?_⟩
  · have := h2
    rwa [List.mem_range] at this
  · intro j hj
    exact h3 j (List.mem_range.mpr hj)

/-- Nucleus truncation of a one-element distribution keeps that element. -/
theorem nucleusCut_singleton (p : Rat) (i : Nat) (q : Rat) :
    nucleusCut p [(i, q)] = [(i, q)] := by
  unfold nucleusCut
  split <;> rfl

/-- Every element kept by nucleus truncation comes from the input. -/
theorem nucleusCut_mem (p : Rat) (l : List (Nat × Rat)) (x : Nat × Rat)
    (hx : x ∈ nucleusCut p l) : x ∈ l := by
  induction l generalizing p with
  | nil => simp [nucleusCut] at hx
  | cons hd tl ih =>
      obtain ⟨i, q⟩ := hd
      unfold nucleusCut at hx
      split at hx
      · simp only [List.mem_singleton] at hx
        simp [hx]
      · rcases List.mem_cons.mp hx with hx | hx
        · simp [hx]
        · exact List.mem_cons_of_mem _ (ih _ hx)

/-- Nucleus truncation of a nonempty distribution is nonempty. -/
theorem nucleusCut_ne_nil (p : Rat) (l : List (Nat × Rat)) (hl : l ≠ []) :
    nucleusCut p l ≠ [] := by
  cases l with
  | nil => exact absurd rfl hl
  | cons hd tl =>
      obtain ⟨i, q⟩ := hd
      unfold nucleusCut
      split <;> simp

/-- The drawn pair always belongs to a nonempty distribution. -/
theorem pickFrom_mem (u : Rat) (l : List (Nat × Rat)) (hl : l ≠ []) :
    pickFrom u l ∈ l := by
  induction l generalizing u with
  | nil => exact absurd rfl hl
  | cons hd tl ih =>
      obtain ⟨i, q⟩ := hd
      cases tl with
      | nil => simp [pickFrom]
      | cons nx rest =>
          unfold pickFrom
          split
          · simp
          · exact List.mem_cons_of_mem _ (ih _ (by simp))

/-- Dividing every probability by a constant divides the sum. -/
theorem sum_map_snd_div (l : List (Nat × Rat)) (c : Rat) :
    (l.map fun x => x.2 / c).sum = (l.map Prod.snd).sum / c := by
  induction l with
  | nil => simp
  | cons hd tl ih => simp [ih, add_div]

/-- For a nonempty row and positive k, the top-k candidate list is nonempty. -/
theorem rowCand_ne_nil (logits : List Rat) (k : Nat) (hk : 0 < k)
    (hne : logits ≠ []) : rowCand logits k ≠ [] := by
  obtain ⟨hsne, -, -⟩ := argsortDesc_head_max logits hne
  unfold rowCand
  cases hs : argsortDesc logits with
  | nil => exact absurd hs hsne
  | cons a t =>
      cases k with
      | zero => omega
      | succ n => simp

/-- The head of the top-k candidate list of a positive k is the overall
argmax index. -/
theorem rowCand_headI (logits : List Rat) (k : Nat) (hk : 0 < k) :
    (rowCand logits k).headI = (argsortDesc logits).headI :=
  take_headI_of_pos _ _ hk

/-- The softmax row distribution has as many entries as candidates. -/
theorem rowProbs_length (logits : List Rat) (k : Nat) (T : Rat)
    (w : Rat → Rat) :
    (rowProbs logits k T w).length = (rowCand logits k).length := by
  simp [rowProbs]

/-- With a positive weight function, every softmax probability of a nonempty
row is positive. -/
theorem rowProbs_pos (logits : List Rat) (k : Nat) (T : Rat) (w : Rat → Rat)
    (hw : ∀ q, 0 < w q) (hk : 0 < k) (hne : logits ≠ []) :
    ∀ x ∈ rowProbs logits k T w, 0 < x.2 := by
  intro x hx
  unfold rowProbs at hx
  have hx2 := (List.of_mem_zip hx).2
  obtain ⟨y, hy, hxy⟩ := List.mem_map.mp hx2
  rw [← hxy]
  obtain ⟨i, hi, rfl⟩ := List.mem_map.mp hy
  refine div_pos (hw _) (List.sum_pos _ (fun z hz => ?_) ?_)
  · obtain ⟨j, hj, rfl⟩ := List.mem_map.mp hz
    exact hw _
  · have := rowCand_ne_nil logits k hk hne
    simpa using this

/-- With a positive weight function, the final truncated renormalized
distribution of a nonempty row is nonempty and its probabilities sum to 1. -/
theorem finalDist_props (logits : List Rat) (k : Nat) (p T : Rat)
    (w : Rat → Rat) (hk : 0 < k) (hw : ∀ q, 0 < w q) (hne : logits ≠ []) :
    finalDist logits k p T w ≠ [] ∧
    ((finalDist logits k p T w).map Prod.snd).sum = 1 := by
  have hpne : rowProbs logits k T w ≠ [] := by
    intro h
    apply rowCand_ne_nil logits k hk hne
    have := rowProbs_length logits k T w
    rw [h] at this
    exact List.eq_nil_of_length_eq_zero this.symm
  have hcutne : nucleusCut p (rowProbs logits k T w) ≠ [] :=
    nucleusCut_ne_nil _ _ hpne
  have hcutpos : ∀ x ∈ nucleusCut p (rowProbs logits k T w), 0 < x.2 :=
    fun x hx => rowProbs_pos logits k T w hw hk hne x (nucleusCut_mem _ _ _ hx)
  have ht2 : 0 < ((nucleusCut p (rowProbs logits k T w)).map Prod.snd).sum := by
    refine List.sum_pos _ (fun z hz => ?_) (by simpa using hcutne)
    obtain ⟨x, hx, rfl⟩ := List.mem_map.mp hz
    exact hcutpos x hx
  constructor
  · simp only [finalDist]
    simpa using hcutne
  · simp only [finalDist, List.map_map]
    have hcomp : (Prod.snd ∘ fun iq : Nat × Rat =>
        (iq.1, iq.2 / ((nucleusCut p (rowProbs logits k T w)).map Prod.snd).sum)) =
        fun iq : Nat × Rat =>
          iq.2 / ((nucleusCut p (rowProbs logits k T w)).map Prod.snd).sum := rfl
    rw [hcomp, sum_map_snd_div]
    exact div_self (ne_of_gt ht2)

/-- Under k=1 or temperature=0, the sampled index of a row is the head of its
descending argsort, independently of the uniform draw, the nucleus threshold,
and the weight function. -/
theorem samplingRow_head (logits : List Rat) (k : Nat) (p T : Rat)
    (w : Rat → Rat) (u : Rat) (hk : 0 < k) (hT : k = 1 ∨ T = 0) :
    (TopKTopPSamplingRow logits k p T w u).1 = (argsortDesc logits).headI := by
  by_cases hT0 : T = 0
  · simp only [TopKTopPSamplingRow, if_pos hT0]
    exact rowCand_headI logits k hk
  · have hk1 : k = 1 := hT.resolve_right hT0
    subst hk1
    simp only [TopKTopPSamplingRow, if_neg hT0]
    cases hsort : argsortDesc logits with
    | nil =>
        simp [finalDist, rowProbs, rowCand, hsort, nucleusCut, pickFrom]
    | cons h t =>
        have hcand : rowCand logits 1 = [h] := by
          unfold rowCand
          rw [hsort]
          rfl
        simp [finalDist, rowProbs, hcand, nucleusCut_singleton, pickFrom, hsort]

/-! ## Claim theorems -/

/-- C1: TopPSampler::Create succeeds exactly when k>0, 0≤p≤1, batch_size>0
and temperature≥0; each violation yields the InvalidArgument error naming the
violated parameter and its bound, checked in source order; and the seed is
never validated: success does not depend on it. -/
theorem create_validates_parameters (k : Int) (p temperature : Rat)
    (batchSize seed seed2 : Int) :
    ((∃ cfg, TopPSampler.Create k p temperature batchSize seed = .ok cfg) ↔
      0 < k ∧ 0 ≤ p ∧ p ≤ 1 ∧ 0 < batchSize ∧ 0 ≤ temperature) ∧
    (k ≤ 0 → TopPSampler.Create k p temperature batchSize seed =
      .error (.invalidArgument "k must be positive.")) ∧
    (0 < k → (p < 0 ∨ 1 < p) →
      TopPSampler.Create k p temperature batchSize seed =
        .error (.invalidArgument "p must be in [0, 1].")) ∧
    (0 < k → 0 ≤ p → p ≤ 1 → batchSize ≤ 0 →
      TopPSampler.Create k p temperature batchSize seed =
        .error (.invalidArgument "batch_size must be positive.")) ∧
    (0 < k → 0 ≤ p → p ≤ 1 → 0 < batchSize → temperature < 0 →
      TopPSampler.Create k p temperature batchSize seed =
        .error (.invalidArgument
          ("Temperature must be >= 0, but got " ++ toString temperature))) ∧
    ((∃ cfg, TopPSampler.Create k p temperature batchSize seed = .ok cfg) ↔
      (∃ cfg, TopPSampler.Create k p temperature batchSize seed2 = .ok cfg)) := by
  unfold TopPSampler.Create
  split_ifs with h1 h2 h3 h4
  · refine ⟨?_, fun _ => rfl, fun hk _ => absurd h1 (by omega),
      fun hk _ _ _ => absurd h1 (by omega),
      fun hk _ _ _ _ => absurd h1 (by omega), by simp⟩
    refine ⟨fun ⟨cfg, hcfg⟩ => absurd hcfg (by simp), fun ⟨hk, _⟩ => absurd h1 (by omega)⟩
  · refine ⟨?_, fun hk => absurd hk (by omega), fun _ _ => rfl,
      fun _ hp0 hp1 _ => ?_, fun _ hp0 hp1 _ _ => ?_, by simp⟩
    · refine ⟨fun ⟨cfg, hcfg⟩ => absurd hcfg (by simp), fun ⟨_, hp0, hp1, _⟩ => ?_⟩
      rcases h2 with h | h <;> linarith
    · rcases h2 with h | h <;> linarith
    · rcases h2 with h | h <;> linarith
  · refine ⟨?_, fun hk => absurd hk (by omega), fun _ hp => absurd hp h2,
      fun _ _ _ _ => rfl, fun _ _ _ hb _ => absurd h3 (by omega), by simp⟩
    refine ⟨fun ⟨cfg, hcfg⟩ => absurd hcfg (by simp), fun ⟨_, _, _, hb, _⟩ => absurd h3 (by omega)⟩
  · refine ⟨?_, fun hk => absurd hk (by omega), fun _ hp => absurd hp h2,
      fun _ _ _ hb => absurd hb (by omega), fun _ _ _ _ _ => rfl, by simp⟩
    refine ⟨fun ⟨cfg, hcfg⟩ => absurd hcfg (by simp), fun ⟨_, _, _, _, hT⟩ => by linarith⟩
  · simp only [not_or, not_lt, not_le] at h2
    refine ⟨?_, fun hk => absurd hk (by omega), fun _ hp => ?_,
      fun _ _ _ hb => absurd hb (by omega),
      fun _ _ _ _ hT => absurd hT (by linarith), by simp⟩
    · exact ⟨fun _ => ⟨by omega, h2.1, h2.2, by omega, by linarith⟩,
        fun _ => ⟨_, rfl⟩⟩
    · rcases hp with h | h <;> rcases h2 with ⟨h0, h1'⟩ <;> linarith

/-- C1 witness: concrete instances of the validation behaviour. -/
theorem create_validates_parameters_witness :
    TopPSampler.Create (-1) 0 1 1 7 =
      .error (.invalidArgument "k must be positive.") :=
  (create_validates_parameters (-1) 0 1 1 7 0).2.1 (by decide)

/-- C2: StripQuotes removes exactly one matched pair of outer quote
characters: it returns the inner substring precisely when the input has length
at least two and its first and last characters are equal and are a double or
single quote, and returns the input unchanged otherwise; the boundary cases of
the claim (empty input, a lone quote, one-sided quotes, mismatched quotes,
matched empty quotes) behave accordingly. -/
theorem stripQuotes_spec :
    (∀ text : List Char,
      ((2 ≤ text.length ∧ text.head? = text.getLast? ∧
          (text.head? = some dquote ∨ text.head? = some squote)) →
        StripQuotes text = (text.drop 1).dropLast) ∧
      (¬(2 ≤ text.length ∧ text.head? = text.getLast? ∧
          (text.head? = some dquote ∨ text.head? = some squote)) →
        StripQuotes text = text)) ∧
    StripQuotes [] = [] ∧
    StripQuotes [dquote] = [dquote] ∧
    StripQuotes [squote] = [squote] ∧
    StripQuotes "\"hello\"".toList = "hello".toList ∧
    StripQuotes "\"a".toList = "\"a".toList ∧
    StripQuotes "a\"".toList = "a\"".toList ∧
    StripQuotes [dquote, Char.ofNat 97, squote] = [dquote, Char.ofNat 97, squote] ∧
    StripQuotes [dquote, dquote] = [] ∧
    StripQuotes [squote, squote] = [] := by
  refine ⟨fun text => ⟨fun h => ?_, fun h => ?_⟩, ?_, ?_, ?_, ?_, ?_, ?_, ?_, ?_, ?_⟩
  · rcases h with ⟨hlen, heq, hq⟩
    unfold StripQuotes
    rw [if_neg]
    intro hc
    rcases hc with hc | hc | hc
    · omega
    · rcases hq with hq | hq
      · exact hc.1 hq
      · exact hc.2 hq
    · exact hc heq.symm
  · unfold StripQuotes
    rw [if_pos]
    rcases Nat.lt_or_ge text.length 2 with hl | hl
    · exact Or.inl hl
    · by_cases hdq : text.head? = some dquote
      · refine Or.inr (Or.inr fun hlast => ?_)
        exact h ⟨hl, hlast.symm, Or.inl hdq⟩
      · by_cases hsq : text.head? = some squote
        · refine Or.inr (Or.inr fun hlast => ?_)
          exact h ⟨hl, hlast.symm, Or.inr hsq⟩
        · exact Or.inr (Or.inl ⟨hdq, hsq⟩)
  all_goals decide

/-- C2 witness: a concrete quoted input satisfying the quoted-input condition
is stripped to its inner substring. -/
theorem stripQuotes_spec_witness :
    StripQuotes "\"hi\"".toList = ("\"hi\"".toList.drop 1).dropLast :=
  (stripQuotes_spec.1 "\"hi\"".toList).1 (by decide)

/-- C7: a DefaultErrorListener starts in the pass state, every one of the four
diagnostic callbacks moves it to the fail state, no callback ever returns it
to the pass state, and after any callback sequence the status is true exactly
when the sequence was empty. -/
theorem defaultErrorListener_pass_iff_no_event :
    DefaultErrorListener.new.status = true ∧
    (∀ l e, (DefaultErrorListener.handle l e).status = false) ∧
    (∀ events, (DefaultErrorListener.run events).status = true ↔ events = []) := by
  refine ⟨rfl, fun l e => by rw [handle_eq_fail], fun events => ?_⟩
  cases events with
  | nil => simp [DefaultErrorListener.run, DefaultErrorListener.new]
  | cons e es =>
      simp only [DefaultErrorListener.run, List.foldl_cons, handle_eq_fail,
        foldl_handle_fail]
      simp

/-- Flattening a list of committed turn pairs into the stretch of History they
contribute: each successful turn contributes its input message immediately
followed by its response message. -/
def pairsFlatten : List (α × α) → List α
  | [] => []
  | pr :: rest => pr.1 :: pr.2 :: pairsFlatten rest

/-- C6: History is mutated only by the all-or-nothing end-of-turn commit: an
aborted, cancelled, or failed turn leaves the history exactly as it was, and
every history an observer can obtain (GetHistory, or a visitor run by
AccessHistory) is the initial history followed by whole committed turns, never
a partially-appended turn. -/
theorem history_commits_are_atomic {α β : Type} (c0 : ConversationState α)
    (turns : List (TurnOutcome α)) (visitor : List α → β) :
    (∀ c : ConversationState α,
      commitTurn c .aborted = c ∧ commitTurn c .cancelled = c ∧
      commitTurn c .failed = c) ∧
    (∃ pairs : List (α × α),
      GetHistory (historyAfter c0 turns) = GetHistory c0 ++ pairsFlatten pairs) ∧
    AccessHistory (historyAfter c0 turns) visitor =
      visitor (GetHistory (historyAfter c0 turns)) := by
  refine ⟨fun c => ⟨rfl, rfl, rfl⟩, ?_, rfl⟩
  induction turns generalizing c0 with
  | nil => exact ⟨[], by simp [historyAfter, GetHistory, pairsFlatten]⟩
  | cons t ts ih =>
      obtain ⟨pairs, hp⟩ := ih (commitTurn c0 t)
      have hstep : historyAfter c0 (t :: ts) = historyAfter (commitTurn c0 t) ts := rfl
      cases t with
      | success input response =>
          refine ⟨(input, response) :: pairs, ?_⟩
          rw [hstep, hp]
          simp [GetHistory, commitTurn, pairsFlatten]
      | aborted => exact ⟨pairs, by rw [hstep, hp]; rfl⟩
      | cancelled => exact ⟨pairs, by rw [hstep, hp]; rfl⟩
      | failed => exact ⟨pairs, by rw [hstep, hp]; rfl⟩

/-- C8 evaluation: the list-based construction path accepts an empty contents
list, because the isNotEmpty check lives in a plain method named init that no
construction path invokes; the text and single-content paths do produce
non-empty contents. Message.of(emptyList()) therefore yields a Message whose
contents list is empty, violating the claimed invariant. -/
theorem message_ofList_admits_empty_contents :
    (Message.ofList []).contents = [] ∧
    Message.initCheck (Message.ofList []) =
      .error "Contents should not be empty." ∧
    (∀ t, (Message.ofText t).contents ≠ []) ∧
    (∀ c, (Message.ofContent c).contents ≠ []) :=
  ⟨rfl, rfl, fun _ => by simp [Message.ofText], fun _ => by simp [Message.ofContent]⟩

/-- C9 counterexample: serializing a Message containing exactly one text part
does not produce an object with a role field as the claim states; the
serialized form is a bare JSON array of content parts. -/
theorem message_toJson_has_no_role_field :
    ((Message.ofText "hi").toJson fun _ => "").hasField "role" = false := rfl

/-- C9 amended: a Message containing exactly one text part serializes to a
JSON array holding the single content part with its type tag and text, carries
no role field, and parsing that serialized content back (parse direction
modelled from the spec) recovers exactly the original content parts. -/
theorem message_text_part_roundtrip (s : String) (b64 : List Nat → String)
    (dec : String → Option (List Nat)) :
    (Message.ofText s).toJson b64 =
      Json.arr [Json.obj [("type", Json.str "text"), ("text", Json.str s)]] ∧
    ((Message.ofText s).toJson b64).hasField "role" = false ∧
    parseMessageContents dec ((Message.ofText s).toJson b64) =
      some [Content.text s] := by
  refine ⟨rfl, rfl, ?_⟩
  simp [Message.ofText, Message.toJson, Content.toJson, parseMessageContents,
    parseContentList, parseContentPart, Json.getField, List.find?]

/-- C3: with k=1 or temperature=0 the sampled index of a row does not depend
on the uniform draw (hence not on the seed), it is a valid index attaining the
maximal logit of the row, and in the concrete setting batch_size=1, k=1,
logits=[0,0,10,0] the id written by SampleToIdAndScoreBuffer is 2 for every
generator state and every p, temperature, and weight function. -/
theorem k1_or_temp0_selects_argmax (logits : List Rat) (k : Nat)
    (p T sp sT : Rat) (w w2 : Rat → Rat) (u u2 : Rat) (seed : Int)
    (gen : Generator) :
    (0 < k → (k = 1 ∨ T = 0) →
      (TopKTopPSamplingRow logits k p T w u).1 =
        (TopKTopPSamplingRow logits k p T w u2).1 ∧
      (logits ≠ [] →
        (TopKTopPSamplingRow logits k p T w u).1 < logits.length ∧
        ∀ j < logits.length,
          logits.getD j 0 ≤
            logits.getD (TopKTopPSamplingRow logits k p T w u).1 0)) ∧
    (TopPSampler.SampleToIdAndScoreBuffer ⟨1, sp, sT, 1, seed⟩ w2 gen
        ⟨[1, 4], 2⟩ [[0, 0, 10, 0]] ⟨[1], 1⟩ none).idsWritten = some [2] := by
  constructor
  · intro hk hT
    rw [samplingRow_head logits k p T w u hk hT,
      samplingRow_head logits k p T w u2 hk hT]
    refine ⟨rfl, fun hne => ?_⟩
    obtain ⟨-, h1, h2⟩ := argsortDesc_head_max logits hne
    exact ⟨h1, h2⟩
  · have hrw : (TopPSampler.SampleToIdAndScoreBuffer ⟨1, sp, sT, 1, seed⟩ w2 gen
        ⟨[1, 4], 2⟩ [[0, 0, 10, 0]] ⟨[1], 1⟩ none).idsWritten =
        some ((TopKTopPSampling [[0, 0, 10, 0]] 1 sp sT w2
          ((List.range 1).map fun r => gen.draws (gen.pos + r))).map Prod.fst) := rfl
    have hrow : ∀ u0, (TopKTopPSamplingRow [0, 0, 10, 0] 1 sp sT w2 u0).1 = 2 := by
      intro u0
      rw [samplingRow_head _ _ _ _ _ _ (by decide) (Or.inl rfl)]
      decide
    rw [hrw]
    have hr1 : List.range 1 = [0] := rfl
    simp [TopKTopPSampling, hr1, hrow]

/-- C3 witness: for the concrete row [0,0,10,0] with k=1, two different
uniform draws select the same id. -/
theorem k1_or_temp0_selects_argmax_witness :
    (TopKTopPSamplingRow [0, 0, 10, 0] 1 (1/2) 1 (fun _ => 1) (1/3)).1 =
      (TopKTopPSamplingRow [0, 0, 10, 0] 1 (1/2) 1 (fun _ => 1) (2/3)).1 :=
  ((k1_or_temp0_selects_argmax [0, 0, 10, 0] 1 (1/2) 1 0 0 (fun _ => 1)
      (fun _ => 1) (1/3) (2/3) 0 ⟨fun _ => 0, 0⟩).1 (by decide) (Or.inl rfl)).1

/-- C4: for a nonzero temperature and positive weights, the sampled pair of a
row is an entry of the final truncated renormalized distribution (so the
probability whose natural log is written is the chosen candidate's final
probability), that distribution sums to 1, and when only one candidate
survives truncation the sampled probability is 1 and the written score is
ln(1.0) = 0; moreover with valid tensors the values written through the
scores tensor are exactly the sampled final probabilities. -/
theorem score_is_log_of_final_prob (logits : List Rat) (k : Nat) (p T : Rat)
    (w : Rat → Rat) (u : Rat) (s : TopPSampler) (gen : Generator)
    (lt it st : TensorInfo) (data : List (List Rat)) :
    (T ≠ 0 → 0 < k → (∀ q, 0 < w q) → logits ≠ [] →
      TopKTopPSamplingRow logits k p T w u ∈ finalDist logits k p T w ∧
      ((finalDist logits k p T w).map Prod.snd).sum = 1 ∧
      ∀ pr, finalDist logits k p T w = [pr] →
        (TopKTopPSamplingRow logits k p T w u).2 = 1 ∧
        writtenScoreValues [(TopKTopPSamplingRow logits k p T w u).2] = [0]) ∧
    (ValidateTensor lt 2 s.batchSize "input logits" = .ok () →
      ValidateTensor it 1 s.batchSize "output ids" = .ok () →
      ValidateTensor st 1 s.batchSize "output scores" = .ok () →
      (s.SampleToIdAndScoreBuffer w gen lt data it (some st)).probsWritten =
        some ((TopKTopPSampling data s.k.toNat s.p s.temperature w
          ((List.range s.batchSize.toNat).map fun r =>
            gen.draws (gen.pos + r))).map Prod.snd)) := by
  constructor
  · intro hT hk hw hne
    obtain ⟨hdne, hsum⟩ := finalDist_props logits k p T w hk hw hne
    have hrow : TopKTopPSamplingRow logits k p T w u =
        pickFrom u (finalDist logits k p T w) := by
      simp [TopKTopPSamplingRow, hT]
    refine ⟨?_, hsum, ?_⟩
    · rw [hrow]
      exact pickFrom_mem u _ hdne
    · intro pr hpr
      have h2 : TopKTopPSamplingRow logits k p T w u = pr := by
        rw [hrow, hpr]
        cases pr
        simp [pickFrom]
      have hpr2 : pr.2 = 1 := by
        rw [hpr] at hsum
        simpa using hsum
      refine ⟨by rw [h2, hpr2], ?_⟩
      rw [h2, hpr2]
      simp [writtenScoreValues]
  · intro h1 h2 h3
    simp [TopPSampler.SampleToIdAndScoreBuffer, h1, h2, h3]

/-- C4 witness: for the row [0,10] with k=1 only one candidate survives, its
final probability is 1, and the written score is 0. -/
theorem score_is_log_of_final_prob_witness :
    (TopKTopPSamplingRow [0, 10] 1 (1/2) 1 (fun _ => 1) 0).2 = 1 ∧
    writtenScoreValues [(TopKTopPSamplingRow [0, 10] 1 (1/2) 1 (fun _ => 1) 0).2] =
      [0] :=
  ((score_is_log_of_final_prob [0, 10] 1 (1/2) 1 (fun _ => 1) 0
      ⟨1, 1/2, 1, 1, 0⟩ ⟨fun _ => 0, 0⟩ ⟨[1, 4], 2⟩ ⟨[1], 1⟩ ⟨[1], 1⟩ []).1
    (by norm_num) (by decide) (fun _ => one_pos) (by simp)).2.2
    (1, 1) (by norm_num [finalDist, rowProbs, rowCand, argsortDesc,
      insertDesc, nucleusCut, List.range_succ])

/-- C5: SampleToIdAndScoreBuffer rejects, with an InvalidArgument error naming
the tensor and the sizes, a logits tensor with more than 2 significant
dimensions or a first dimension different from the configured batch size, and
an ids tensor with more than 1 significant dimension or a first dimension
different from the batch size; in each case nothing is written to the ids
tensor. -/
theorem sample_rejects_bad_shapes (s : TopPSampler) (w : Rat → Rat)
    (gen : Generator) (lt it : TensorInfo) (data : List (List Rat))
    (scoresTensor : Option TensorInfo) :
    (2 < lt.numSignificantDims →
      (s.SampleToIdAndScoreBuffer w gen lt data it scoresTensor).status =
        .error (.invalidArgument
          ("The output input logits tensor must have <=2 significant dimension, but got "
            ++ toString lt.numSignificantDims)) ∧
      (s.SampleToIdAndScoreBuffer w gen lt data it scoresTensor).idsWritten =
        none) ∧
    (lt.numSignificantDims ≤ 2 → lt.dims.headI ≠ s.batchSize →
      (s.SampleToIdAndScoreBuffer w gen lt data it scoresTensor).status =
        .error (.invalidArgument
          ("The output input logits tensor must have the same batch size as the input logits tensor, but got "
            ++ toString lt.dims.headI ++ " vs " ++ toString s.batchSize)) ∧
      (s.SampleToIdAndScoreBuffer w gen lt data it scoresTensor).idsWritten =
        none) ∧
    (ValidateTensor lt 2 s.batchSize "input logits" = .ok () →
      1 < it.numSignificantDims →
      (s.SampleToIdAndScoreBuffer w gen lt data it scoresTensor).status =
        .error (.invalidArgument
          ("The output output ids tensor must have <=1 significant dimension, but got "
            ++ toString it.numSignificantDims)) ∧
      (s.SampleToIdAndScoreBuffer w gen lt data it scoresTensor).idsWritten =
        none) ∧
    (ValidateTensor lt 2 s.batchSize "input logits" = .ok () →
      it.numSignificantDims ≤ 1 → it.dims.headI ≠ s.batchSize →
      (s.SampleToIdAndScoreBuffer w gen lt data it scoresTensor).status =
        .error (.invalidArgument
          ("The output output ids tensor must have the same batch size as the input logits tensor, but got "
            ++ toString it.dims.headI ++ " vs " ++ toString s.batchSize)) ∧
      (s.SampleToIdAndScoreBuffer w gen lt data it scoresTensor).idsWritten =
        none) := by
  refine ⟨fun h => ?_, fun h1 h2 => ?_, fun hlt h => ?_, fun hlt h1 h2 => ?_⟩
  · have hv : ValidateTensor lt 2 s.batchSize "input logits" =
        .error (.invalidArgument
          ("The output input logits tensor must have <=2 significant dimension, but got "
            ++ toString lt.numSignificantDims)) := by
      unfold ValidateTensor
      rw [if_pos h]
      rfl
    exact ⟨by simp [TopPSampler.SampleToIdAndScoreBuffer, hv],
      by simp [TopPSampler.SampleToIdAndScoreBuffer, hv]⟩
  · have hv : ValidateTensor lt 2 s.batchSize "input logits" =
        .error (.invalidArgument
          ("The output input logits tensor must have the same batch size as the input logits tensor, but got "
            ++ toString lt.dims.headI ++ " vs " ++ toString s.batchSize)) := by
      unfold ValidateTensor
      rw [if_neg (by omega), if_pos h2]
      rfl
    exact ⟨by simp [TopPSampler.SampleToIdAndScoreBuffer, hv],
      by simp [TopPSampler.SampleToIdAndScoreBuffer, hv]⟩
  · have hv : ValidateTensor it 1 s.batchSize "output ids" =
        .error (.invalidArgument
          ("The output output ids tensor must have <=1 significant dimension, but got "
            ++ toString it.numSignificantDims)) := by
      unfold ValidateTensor
      rw [if_pos h]
      rfl
    exact ⟨by simp [TopPSampler.SampleToIdAndScoreBuffer, hlt, hv],
      by simp [TopPSampler.SampleToIdAndScoreBuffer, hlt, hv]⟩
  · have hv : ValidateTensor it 1 s.batchSize "output ids" =
        .error (.invalidArgument
          ("The output output ids tensor must have the same batch size as the input logits tensor, but got "
            ++ toString it.dims.headI ++ " vs " ++ toString s.batchSize)) := by
      unfold ValidateTensor
      rw [if_neg (by omega), if_pos h2]
      rfl
    exact ⟨by simp [TopPSampler.SampleToIdAndScoreBuffer, hlt, hv],
      by simp [TopPSampler.SampleToIdAndScoreBuffer, hlt, hv]⟩

/-- C5 witness: a logits tensor with batch dimension 3 against a configured
batch size of 2 fails with the InvalidArgument error naming the sizes, and no
ids are written. -/
theorem sample_rejects_bad_shapes_witness :
    ((⟨1, 1/2, 1, 2, 0⟩ : TopPSampler).SampleToIdAndScoreBuffer (fun _ => 1)
        ⟨fun _ => 0, 0⟩ ⟨[3, 4], 2⟩ [] ⟨[2], 1⟩ none).status =
      .error (.invalidArgument
        "The output input logits tensor must have the same batch size as the input logits tensor, but got 3 vs 2") ∧
    ((⟨1, 1/2, 1, 2, 0⟩ : TopPSampler).SampleToIdAndScoreBuffer (fun _ => 1)
        ⟨fun _ => 0, 0⟩ ⟨[3, 4], 2⟩ [] ⟨[2], 1⟩ none).idsWritten = none :=
  (sample_rejects_bad_shapes ⟨1, 1/2, 1, 2, 0⟩ (fun _ => 1) ⟨fun _ => 0, 0⟩
    ⟨[3, 4], 2⟩ ⟨[2], 1⟩ [] none).2.1 (by decide) (by decide)

/-- C10: when the scores tensor fails validation but the logits and ids
tensors are valid, the call returns InvalidArgument, yet the sampled ids have
already been written into the ids tensor and the generator has already been
advanced by one draw per batch row: the scores tensor is validated only after
the ids write. -/
theorem scores_checked_after_ids_written (s : TopPSampler) (w : Rat → Rat)
    (gen : Generator) (lt it st : TensorInfo) (data : List (List Rat))
    (hlt : ValidateTensor lt 2 s.batchSize "input logits" = .ok ())
    (hit : ValidateTensor it 1 s.batchSize "output ids" = .ok ())
    (hst : ∃ e, ValidateTensor st 1 s.batchSize "output scores" = .error e) :
    (∃ msg, (s.SampleToIdAndScoreBuffer w gen lt data it (some st)).status =
      .error (.invalidArgument msg)) ∧
    (s.SampleToIdAndScoreBuffer w gen lt data it (some st)).idsWritten =
      some ((TopKTopPSampling data s.k.toNat s.p s.temperature w
        ((List.range s.batchSize.toNat).map fun r =>
          gen.draws (gen.pos + r))).map Prod.fst) ∧
    (s.SampleToIdAndScoreBuffer w gen lt data it (some st)).probsWritten =
      none ∧
    (s.SampleToIdAndScoreBuffer w gen lt data it (some st)).gen.pos =
      gen.pos + s.batchSize.toNat := by
  obtain ⟨e, he⟩ := hst
  obtain ⟨msg⟩ := e
  refine ⟨⟨msg, ?_⟩, ?_, ?_, ?_⟩ <;>
    simp [TopPSampler.SampleToIdAndScoreBuffer, hlt, hit, he]

/-- C10 witness: with a scores tensor of batch dimension 2 against batch size
1, the call fails but the sampled id 2 is written and the generator position
advances. -/
theorem scores_checked_after_ids_written_witness :
    ((⟨1, 1/2, 1, 1, 0⟩ : TopPSampler).SampleToIdAndScoreBuffer (fun _ => 1)
        ⟨fun _ => 0, 0⟩ ⟨[1, 4], 2⟩ [[0, 0, 10, 0]] ⟨[1], 1⟩
        (some ⟨[2], 1⟩)).idsWritten = some [2] ∧
    ((⟨1, 1/2, 1, 1, 0⟩ : TopPSampler).SampleToIdAndScoreBuffer (fun _ => 1)
        ⟨fun _ => 0, 0⟩ ⟨[1, 4], 2⟩ [[0, 0, 10, 0]] ⟨[1], 1⟩
        (some ⟨[2], 1⟩)).probsWritten = none ∧
    ((⟨1, 1/2, 1, 1, 0⟩ : TopPSampler).SampleToIdAndScoreBuffer (fun _ => 1)
        ⟨fun _ => 0, 0⟩ ⟨[1, 4], 2⟩ [[0, 0, 10, 0]] ⟨[1], 1⟩
        (some ⟨[2], 1⟩)).gen.pos = 0 + 1 := by
  obtain ⟨-, hids, hprobs, hpos⟩ :=
    scores_checked_after_ids_written ⟨1, 1/2, 1, 1, 0⟩ (fun _ => 1)
      ⟨fun _ => 0, 0⟩ ⟨[1, 4], 2⟩ ⟨[1], 1⟩ ⟨[2], 1⟩ [[0, 0, 10, 0]]
      rfl rfl ⟨_, rfl⟩
  refine ⟨?_, hprobs, hpos⟩
  rw [hids]
  have hrow2 : ∀ p0 u0, (TopKTopPSamplingRow [0, 0, 10, 0] 1 p0 1
      (fun _ => (1 : Rat)) u0).1 = 2 := by
    intro p0 u0
    rw [samplingRow_head _ _ _ _ _ _ (by decide) (Or.inl rfl)]
    decide
  have hr1 : List.range 1 = [0] := rfl
  simp [TopKTopPSampling, hr1, hrow2]

end LiteRTLM
